import Mathlib

/-!
Shallow embedding of the silbidopy library (contour codec, spectrogram and
annotation-mask rendering, patch-grid index, balanced resampling), together
with theorems settling the specification's claims against it.

Sources embedded: silbidopy/writeBinaries.py, silbidopy/render.py,
silbidopy/data.py.  Machine integers are modelled as Nat/Int, Python floats
as exact rationals; `struct.pack('>d', x)` is kept as an opaque serializer
parameter because only byte order and layout matter to the claims.
-/

namespace Silbidopy

/- Core marks these rational operations irreducible, which blocks
evaluating concrete witnesses by `decide`; restore the default
reducibility for this file. -/
attribute [local semireducible] Rat.add Rat.sub Rat.mul Rat.inv

/-! ## ContourCodec (writeBinaries.py) -/

def SHORT_LEN : ℕ := 2
def INT_LEN : ℕ := 4
def DOUBLE_LEN : ℕ := 8
def LONG_LEN : ℕ := 8

/-- The 8 ASCII bytes of the magic string "silbido!". -/
def HEADER_STR : List ℕ := [115, 105, 108, 98, 105, 100, 111, 33]

def DET_VERSION : ℕ := 4

def TIME : ℕ := 1
def FREQ : ℕ := 2
def SNR : ℕ := 4
def PHASE : ℕ := 8
def RIDGE : ℕ := 64
def TIMESTAMP : ℕ := 128
def USERCOMMENT : ℕ := 256
def SCORE : ℕ := 16
def CONFIDENCE : ℕ := 32
def SPECIES : ℕ := 512
def CALL : ℕ := 1024

/-- `n.to_bytes(len, byteorder="big")`: big-endian byte list of a
nonnegative integer (the in-range case; the one reachable overflow,
in `write_utf8_string`, is modelled there explicitly). -/
def toBytesBE (len n : ℕ) : List ℕ :=
  (List.range len).map (fun i => n / 256 ^ (len - 1 - i) % 256)

/-- UTF-8 bytes of one character, as Python's `str.encode("utf-8")`
produces them. -/
def charUtf8 (c : Char) : List ℕ :=
  let n := c.toNat
  if n < 128 then [n]
  else if n < 2048 then [192 + n / 64, 128 + n % 64]
  else if n < 65536 then [224 + n / 4096, 128 + n / 64 % 64, 128 + n % 64]
  else [240 + n / 262144, 128 + n / 4096 % 64, 128 + n / 64 % 64, 128 + n % 64]

/-- UTF-8 byte sequence of a string (`str.encode("utf-8")`). -/
def utf8Bytes (s : String) : List ℕ := (s.data.map charUtf8).flatten

/-- `write_utf8_string(file, strval)` from writeBinaries.py: `n =
len(strval)` is the CHARACTER count; `if n > 2 ** 16: raise`; then
`n.to_bytes(SHORT_LEN, "big")` (which itself raises OverflowError for
`n = 2 ** 16`) followed by the UTF-8 bytes of the string. -/
def write_utf8_string (strval : String) : Except String (List ℕ) :=
  let n := strval.length
  if 2 ^ 16 < n then Except.error "RuntimeError: Length of string is too long"
  else if 2 ^ 16 ≤ n then Except.error "OverflowError: int too big to convert"
  else Except.ok (toBytesBE SHORT_LEN n ++ utf8Bytes strval)

/-- A contour as `writeTimeFrequencyBinary` accepts it in its dataclass
form: parallel `time`/`freq` arrays plus optional `species`/`call` names
(present in every contour or in none, per the homogeneity assumption the
source makes when it inspects the first contour's fields). -/
structure TFContour where
  time : List Float
  freq : List Float
  species : String := ""
  call : String := ""

/-- Body bytes one contour contributes in `writeTimeFrequencyBinary`:
optional species/call strings, the u64 graphId constant 0, the u32 node
count `N = len(contour.time)`, then per node index the packed time and
frequency doubles. `pack` stands for `struct.pack('>d', ·)`. -/
def encodeTFContour (pack : Float → List ℕ) (hasSpecies hasCall : Bool)
    (c : TFContour) : Except String (List ℕ) := do
  let N := c.time.length
  let speciesBytes ← if hasSpecies then write_utf8_string c.species else pure []
  let callBytes ← if hasCall then write_utf8_string c.call else pure []
  let nodes := ((List.range N).map
    (fun idx => pack (c.time.getD idx 0) ++ pack (c.freq.getD idx 0))).flatten
  return speciesBytes ++ callBytes ++ toBytesBE LONG_LEN 0 ++ toBytesBE INT_LEN N ++ nodes

/-- `writeTimeFrequencyBinary(filename, contours, userVersion)` from
writeBinaries.py, dataclass path.  `hasSpecies`/`hasCall` model
`"species" in fields` / `"call" in fields` read off the first contour.
Bitmask is TIME|FREQ plus the optional string bits; header size is the
fixed `3 * SHORT_LEN + INT_LEN + len(HEADER_STR)` (no comment, no
timestamp). -/
def writeTimeFrequencyBinary (pack : Float → List ℕ)
    (hasSpecies hasCall : Bool) (contours : List TFContour)
    (userVersion : ℕ) : Except String (List ℕ) := do
  let bitMask :=
    (TIME ||| FREQ) ||| (if hasSpecies then SPECIES else 0)
      ||| (if hasCall then CALL else 0)
  let headerSize := 3 * SHORT_LEN + INT_LEN + HEADER_STR.length
  let bodies ← contours.mapM (encodeTFContour pack hasSpecies hasCall)
  return HEADER_STR ++ toBytesBE SHORT_LEN DET_VERSION
    ++ toBytesBE SHORT_LEN bitMask ++ toBytesBE SHORT_LEN userVersion
    ++ toBytesBE INT_LEN headerSize ++ bodies.flatten

/-- One node of a contour dictionary for `writeContoursBinary`
(`{"time": ..., "freq": ..., "snr": ..., "phase": ..., "ridge": ...}`). -/
structure CNode where
  time : Float := 0
  freq : Float := 0
  snr : Float := 0
  phase : Float := 0
  ridge : Float := 0

/-- One contour dictionary for `writeContoursBinary`. -/
structure CContour where
  confidence : Float := 0
  score : Float := 0
  species : String := ""
  call : String := ""
  tfnodes : List CNode := []

/-- The species branch of `writeContoursBinary`: `L = len(contour["species"])`
(character count), `if L >= 2**16: raise RuntimeError`, else the u16 length
prefix followed by the UTF-8 bytes. -/
def writeSpeciesField (s : String) : Except String (List ℕ) :=
  if 2 ^ 16 ≤ s.length then
    Except.error "RuntimeError: Length of species name is too long"
  else Except.ok (toBytesBE SHORT_LEN s.length ++ utf8Bytes s)

/-- The call branch of `writeContoursBinary`, same shape as the species
branch. -/
def writeCallField (s : String) : Except String (List ℕ) :=
  if 2 ^ 16 ≤ s.length then
    Except.error "RuntimeError: Length of call name is too long"
  else Except.ok (toBytesBE SHORT_LEN s.length ++ utf8Bytes s)

/-- Body bytes one contour dictionary contributes in
`writeContoursBinary`: optional confidence/score doubles, optional
species/call strings, the u64 graphId constant 14567891234567891234, the
u32 node count, then per node the doubles for each enabled field in the
fixed order time, freq, snr, phase, ridge. -/
def encodeCContour (pack : Float → List ℕ)
    (time frequency snr phase ridge score confidence species call : Bool)
    (c : CContour) : Except String (List ℕ) := do
  let confBytes := if confidence then pack c.confidence else []
  let scoreBytes := if score then pack c.score else []
  let speciesBytes ← if species then writeSpeciesField c.species else pure []
  let callBytes ← if call then writeCallField c.call else pure []
  let graphId := toBytesBE LONG_LEN 14567891234567891234
  let nodes := (c.tfnodes.map (fun nd =>
    (if time then pack nd.time else [])
      ++ (if frequency then pack nd.freq else [])
      ++ (if snr then pack nd.snr else [])
      ++ (if phase then pack nd.phase else [])
      ++ (if ridge then pack nd.ridge else []))).flatten
  return confBytes ++ scoreBytes ++ speciesBytes ++ callBytes ++ graphId
    ++ toBytesBE INT_LEN c.tfnodes.length ++ nodes

/-- `writeContoursBinary` from writeBinaries.py.  The bitmask and header
size accumulate over the enabled fields exactly as in the source
(`headerSize` counts `2 + len(...)` CHARACTERS for comment and
timestamp).  A nonempty `timestamp` reproduces the source's call
`write_utf8_string(timestamp)`, which is missing its file argument and
therefore raises a `TypeError` before any timestamp bytes are written. -/
def writeContoursBinary (pack : Float → List ℕ) (contours : List CContour)
    (time frequency snr phase ridge : Bool) (comment timestamp : String)
    (score confidence species call : Bool) : Except String (List ℕ) := do
  let bitMask :=
    (if time then TIME else 0) + (if frequency then FREQ else 0)
      + (if snr then SNR else 0) + (if phase then PHASE else 0)
      + (if ridge then RIDGE else 0)
      + (if comment.length > 0 then USERCOMMENT else 0)
      + (if timestamp.length > 0 then TIMESTAMP else 0)
      + (if score then SCORE else 0) + (if confidence then CONFIDENCE else 0)
      + (if species then SPECIES else 0) + (if call then CALL else 0)
  let headerSize := 3 * SHORT_LEN + INT_LEN + HEADER_STR.length
    + (if comment.length > 0 then 2 + comment.length else 0)
    + (if timestamp.length > 0 then 2 + timestamp.length else 0)
  let commentBytes ← if comment.length > 0 then write_utf8_string comment else pure []
  let _ ← if timestamp.length > 0 then
      (Except.error "TypeError: write_utf8_string missing 1 required positional argument"
        : Except String (List ℕ))
    else pure []
  let bodies ← contours.mapM
    (encodeCContour pack time frequency snr phase ridge score confidence species call)
  return HEADER_STR ++ toBytesBE SHORT_LEN DET_VERSION
    ++ toBytesBE SHORT_LEN bitMask ++ toBytesBE SHORT_LEN 0
    ++ toBytesBE INT_LEN headerSize ++ commentBytes ++ bodies.flatten

/-- C1: encoding one contour with nodes (t=1.25, f=500.0), (t=1.30, f=505.5)
under bitmask TIME|FREQ produces exactly magic "silbido!", u16 version 4,
u16 bitmask 3, u16 user version 0, u32 header size, the 8-byte graphId
constant, u32 node count 2, then the packed doubles in order time0, freq0,
time1, freq1 — for any big-endian f64 serializer `pack`. -/
theorem writeTimeFrequencyBinary_tf_layout (pack : Float → List ℕ) :
    writeTimeFrequencyBinary pack false false
      [{ time := [1.25, 1.30], freq := [500.0, 505.5] }] 0
    = Except.ok (HEADER_STR ++ [0, 4] ++ [0, 3] ++ [0, 0] ++ [0, 0, 0, 18]
        ++ List.replicate 8 0 ++ [0, 0, 0, 2]
        ++ (pack 1.25 ++ pack 500.0 ++ pack 1.30 ++ pack 505.5)) := by
  simp [writeTimeFrequencyBinary, encodeTFContour, write_utf8_string,
    toBytesBE, HEADER_STR, DET_VERSION, SHORT_LEN, INT_LEN, LONG_LEN,
    TIME, FREQ, SPECIES, CALL, List.range_succ, List.mapM.loop, pure, Except.pure,
    Bind.bind, Except.bind, List.flatten, List.append_nil]

/-- C5 (code bug): the string length checks and the u16 length prefix use
Python's `len`, the CHARACTER count, not the UTF-8 byte count.  For the
one-character, two-byte string "é" the writer emits prefix 0x0001 followed
by two bytes, so the prefix is not the UTF-8 byte length; and a nonempty
timestamp makes `writeContoursBinary` fail regardless of its length,
because the source calls `write_utf8_string(timestamp)` without the file
argument. -/
theorem write_utf8_string_char_count :
    write_utf8_string "é" = Except.ok [0, 1, 195, 169]
      ∧ (utf8Bytes "é").length = 2
      ∧ ∀ pack : Float → List ℕ,
          writeContoursBinary pack [] true true false false false "" "ts"
            false false false false
          = Except.error
              "TypeError: write_utf8_string missing 1 required positional argument" := by
  refine ⟨rfl, rfl, fun pack => rfl⟩


/-! ## PatchGridIndex (data.py, AudioTonalDataset) -/

/-- Per-file grid geometry held in `self.file_info`: the number of time
divisions and frequency divisions computed at corpus load. -/
structure FileInfo where
  ntd : ℕ
  nfd : ℕ

instance : Inhabited FileInfo := ⟨⟨0, 0⟩⟩

/-- The per-file patch count appended to `self.num_patches`:
`num_freq_divisions * num_time_divisions`. -/
def numPatches (f : FileInfo) : ℕ := f.nfd * f.ntd

/-- `len(self)`: the sum of all per-file patch counts. -/
def totalPatches (files : List FileInfo) : ℕ := (files.map numPatches).sum

/-- `np.cumsum` of a list of counts: running totals. -/
def cumsum : List ℕ → List ℕ
  | [] => []
  | c :: rest => c :: (cumsum rest).map (c + ·)

/-- `AudioTonalDataset.get_index_source(idx)`: raises IndexError (`none`)
when `idx >= len(self)`; otherwise the owning file is
`np.argmax(patches_cumsum > idx)` (the first cumulative count exceeding
`idx`), `idx` is made file-relative by subtracting the previous cumulative
count, and start time / start frequency come from divmod by the file's
`num_time_divisions`. -/
def get_index_source (files : List FileInfo) (tpa fpa minf : ℚ) (idx : ℕ) :
    Option (ℕ × ℚ × ℚ) :=
  if totalPatches files ≤ idx then none
  else
    let sums := cumsum (files.map numPatches)
    let fileIdx := sums.findIdx (fun s => decide (idx < s))
    let localIdx := if fileIdx = 0 then idx else idx - sums.getD (fileIdx - 1) 0
    let ntd := (files.getD fileIdx default).ntd
    some (fileIdx, (localIdx % ntd : ℕ) * tpa, ((localIdx / ntd : ℕ) : ℚ) * fpa + minf)

/-- Sum of the patch counts of all files preceding file `i`. -/
def prefixPatches (files : List FileInfo) (i : ℕ) : ℕ :=
  ((files.map numPatches).take i).sum

/-- The forward id mapping as the claim states it: time division =
start_time / time_patch_advance, freq division = (start_freq - min_freq) /
freq_patch_advance, local id = time_division + freq_division *
num_time_divisions, global id = local id + patches of preceding files. -/
def forwardIndex (files : List FileInfo) (tpa fpa minf : ℚ) (i : ℕ)
    (st sf : ℚ) : ℚ :=
  st / tpa + (sf - minf) / fpa * (files.getD i default).ntd + prefixPatches files i

/-- File `i` owns global id `idx`: `idx` lies between the cumulative patch
counts before and through file `i`. -/
def isOwner (files : List FileInfo) (idx i : ℕ) : Prop :=
  i < files.length ∧ prefixPatches files i ≤ idx
    ∧ idx < prefixPatches files i + numPatches (files.getD i default)

/-- Recursive restatement of the cumulative-sum file search, used to prove
facts about `get_index_source` by induction. -/
def resolveLocal : List FileInfo → ℕ → Option (ℕ × ℕ)
  | [], _ => none
  | f :: rest, idx =>
    if idx < numPatches f then some (0, idx)
    else (resolveLocal rest (idx - numPatches f)).map (fun p => (p.1 + 1, p.2))

theorem cumsum_length (l : List ℕ) : (cumsum l).length = l.length := by
  induction l with
  | nil => rfl
  | cons c rest ih => simp [cumsum, ih]

theorem findIdx_map_comp {α β : Type} (f : α → β) (p : β → Bool) (l : List α) :
    (l.map f).findIdx p = l.findIdx (fun a => p (f a)) := by
  induction l with
  | nil => rfl
  | cons a l ih => simp [List.findIdx_cons, ih]

/-- The recursive resolver agrees with the cumsum/argmax computation in
`get_index_source` and produces a file index and local index with the
prefix-sum properties. -/
theorem resolveLocal_spec (files : List FileInfo) (idx : ℕ)
    (h : idx < totalPatches files) :
    ∃ fi li, resolveLocal files idx = some (fi, li)
      ∧ (cumsum (files.map numPatches)).findIdx (fun s => decide (idx < s)) = fi
      ∧ (if fi = 0 then idx
          else idx - (cumsum (files.map numPatches)).getD (fi - 1) 0) = li
      ∧ fi < files.length
      ∧ prefixPatches files fi + li = idx
      ∧ li < numPatches (files.getD fi default) := by
  induction files generalizing idx with
  | nil => simp [totalPatches] at h
  | cons f rest ih =>
    by_cases hlt : idx < numPatches f
    · refine ⟨0, idx, ?_, ?_, rfl, Nat.succ_pos _, ?_, ?_⟩
      · simp [resolveLocal, hlt]
      · simp [cumsum, List.findIdx_cons, hlt]
      · simp [prefixPatches]
      · simpa [prefixPatches] using hlt
    · push_neg at hlt
      have h2 : idx - numPatches f < totalPatches rest := by
        simp only [totalPatches, List.map_cons, List.sum_cons] at h
        simp only [totalPatches]
        omega
      obtain ⟨fi, li, hres, hfind, hloc, hlen, hpre, hlt2⟩ := ih (idx - numPatches f) h2
      refine ⟨fi + 1, li, ?_, ?_, ?_, by simpa using hlen, ?_, by simpa using hlt2⟩
      · simp [resolveLocal, Nat.not_lt.mpr hlt, hres]
      · have hmap : ((cumsum (rest.map numPatches)).map (numPatches f + ·)).findIdx
            (fun s => decide (idx < s))
            = (cumsum (rest.map numPatches)).findIdx
                (fun s => decide (idx - numPatches f < s)) := by
          rw [findIdx_map_comp]
          congr 1
          funext s
          simp only [decide_eq_decide]
          omega
        simp [cumsum, List.findIdx_cons, Nat.not_lt.mpr hlt, hmap, hfind]
      · rcases Nat.eq_zero_or_pos fi with hfi0 | hfipos
        · subst hfi0
          simp only [if_pos rfl] at hloc
          simpa [cumsum, List.getD_cons_zero] using hloc
        · obtain ⟨k, rfl⟩ : ∃ k, fi = k + 1 := ⟨fi - 1, by omega⟩
          simp only [Nat.succ_ne_zero, if_neg, ite_false, Nat.add_sub_cancel] at hloc ⊢
          have hk : k < (cumsum (rest.map numPatches)).length := by
            rw [cumsum_length, List.length_map]
            omega
          rw [List.map_cons, cumsum, List.getD_cons_succ,
            List.getD_eq_getElem _ _ (by simpa using hk), List.getElem_map,
            ← List.getD_eq_getElem _ 0 hk]
          omega
      · have hstep : prefixPatches (f :: rest) (fi + 1)
            = numPatches f + prefixPatches rest fi := by
          simp [prefixPatches]
        omega


theorem prefixPatches_mono (files : List FileInfo) {i j : ℕ} (hij : i ≤ j) :
    prefixPatches files i ≤ prefixPatches files j := by
  unfold prefixPatches
  rw [show ((files.map numPatches).take i)
      = (((files.map numPatches).take j).take i) by
    rw [List.take_take, Nat.min_eq_left hij]]
  conv_rhs => rw [← List.take_append_drop i ((files.map numPatches).take j)]
  rw [List.sum_append]
  exact Nat.le_add_right _ _

theorem prefixPatches_succ (files : List FileInfo) {i : ℕ}
    (h : i < files.length) :
    prefixPatches files (i + 1)
      = prefixPatches files i + numPatches (files.getD i default) := by
  unfold prefixPatches
  rw [List.sum_take_succ _ i (by simpa using h)]
  congr 1
  rw [List.getElem_map, ← List.getD_eq_getElem _ default h]

theorem isOwner_lt_absurd (files : List FileInfo) (idx : ℕ) {i j : ℕ}
    (hi : isOwner files idx i) (hj : isOwner files idx j) (hij : i < j) :
    False := by
  have h1 : prefixPatches files (i + 1) ≤ prefixPatches files j :=
    prefixPatches_mono files hij
  have h2 := prefixPatches_succ files hi.1
  have h3 := hi.2.2
  have h4 := hj.2.1
  omega

/-- C2: for every global patch id below the total patch count,
`get_index_source` resolves it through the cumulative prefix sums to
exactly one owning file, and the forward mapping of the claim — time
division from start time, frequency division from start frequency, local
id time-major, plus the preceding files' patch counts — recovers the
original id. -/
theorem get_index_source_roundtrip (files : List FileInfo) (tpa fpa minf : ℚ)
    (idx : ℕ) (htpa : 0 < tpa) (hfpa : 0 < fpa)
    (hidx : idx < totalPatches files) :
    ∃ fi st sf, get_index_source files tpa fpa minf idx = some (fi, st, sf)
      ∧ isOwner files idx fi ∧ (∀ j, isOwner files idx j → j = fi)
      ∧ forwardIndex files tpa fpa minf fi st sf = (idx : ℚ) := by
  obtain ⟨fi, li, hres, hfind, hloc, hlen, hpre, hlt⟩ :=
    resolveLocal_spec files idx hidx
  refine ⟨fi, ((li % (files.getD fi default).ntd : ℕ) : ℚ) * tpa,
    ((li / (files.getD fi default).ntd : ℕ) : ℚ) * fpa + minf, ?_, ?_, ?_, ?_⟩
  · simp only [get_index_source]
    rw [if_neg (Nat.not_le.mpr hidx)]
    simp only [hfind, hloc]
  · exact ⟨hlen, by omega, by omega⟩
  · intro j hj
    rcases Nat.lt_trichotomy j fi with hc | hc | hc
    · exact absurd (isOwner_lt_absurd files idx hj ⟨hlen, by omega, by omega⟩ hc) not_false
    · exact hc
    · exact absurd (isOwner_lt_absurd files idx ⟨hlen, by omega, by omega⟩ hj hc) not_false
  · unfold forwardIndex
    rw [mul_div_cancel_right₀ _ (ne_of_gt htpa), add_sub_cancel_right,
      mul_div_cancel_right₀ _ (ne_of_gt hfpa)]
    have hN : li % (files.getD fi default).ntd
        + li / (files.getD fi default).ntd * (files.getD fi default).ntd
        + prefixPatches files fi = idx := by
      rw [Nat.mod_add_div']
      omega
    exact_mod_cast hN

/-- Witness for C2 at a one-file dataset with 2 time and 3 frequency
divisions, id 5. -/
theorem get_index_source_roundtrip_witness :
    ∃ fi st sf, get_index_source [⟨2, 3⟩] 1 1 0 5 = some (fi, st, sf)
      ∧ isOwner [⟨2, 3⟩] 5 fi ∧ (∀ j, isOwner [⟨2, 3⟩] 5 j → j = fi)
      ∧ forwardIndex [⟨2, 3⟩] 1 1 0 fi st sf = (5 : ℚ) :=
  get_index_source_roundtrip [⟨2, 3⟩] 1 1 0 5 (by norm_num) (by norm_num)
    (by norm_num [totalPatches, numPatches])

/-! ## Rendering (render.py) -/

/-- A 2-D numpy array: tracked shape plus an entry function.  Shape is
intrinsic to a numpy array and is preserved or transformed by every
operation below exactly as numpy does it. -/
structure Arr2 where
  r : ℕ
  c : ℕ
  at2 : ℕ → ℕ → ℚ

/-- `np.array([])`, the empty frame set `getFrames` returns when the
selected range is shorter than one frame. -/
def emptyArr : Arr2 := ⟨0, 0, fun _ _ => 0⟩

/-- numpy transpose `.T`. -/
def Arr2.T (a : Arr2) : Arr2 := ⟨a.c, a.r, fun i j => a.at2 j i⟩

/-- Elementwise application of a scalar function. -/
def Arr2.emap (a : Arr2) (f : ℚ → ℚ) : Arr2 := ⟨a.r, a.c, fun i j => f (a.at2 i j)⟩

/-- Row reversal `arr[::-1]`. -/
def Arr2.flip (a : Arr2) : Arr2 := ⟨a.r, a.c, fun i j => a.at2 (a.r - 1 - i) j⟩

/-- Resolve one Python slice bound against length `n`: negative indices
count from the end, and both ends clamp into `[0, n]`. -/
def pySliceIdx (n : ℕ) (i : ℤ) : ℕ :=
  if i < 0 then ((n : ℤ) + i).toNat else min i.toNat n

/-- Python slice `l[a:b]` (step 1). -/
def pySliceList {α : Type} (l : List α) (a b : ℤ) : List α :=
  (l.take (pySliceIdx l.length b)).drop (pySliceIdx l.length a)

/-- Row slice `arr[a:b]` of a 2-D numpy array (column count survives even
when no row does). -/
def Arr2.rowSlice (arr : Arr2) (a b : ℤ) : Arr2 :=
  ⟨pySliceIdx arr.r b - pySliceIdx arr.r a, arr.c,
    fun i j => arr.at2 (pySliceIdx arr.r a + i) j⟩

/-- Python `int()` truncation toward zero of a rational. -/
def pyTrunc (q : ℚ) : ℤ := if q < 0 then ⌈q⌉ else ⌊q⌋

/-- A decoded audio file (`wavio.Wav`): sample array (raveled), sample
rate, and bytes per sample. -/
structure Wav where
  data : List ℤ
  rate : ℕ
  sampwidth : ℕ

/-- The rescale at the top of `getFrames`: for sample widths above 2
bytes the sample array itself is floor-divided in place
(`wav_data.data //= 2 ** (8 * (wav_data.sampwidth - 2))`). -/
def rescaleWav (w : Wav) : Wav :=
  if 2 < w.sampwidth then
    { w with data := w.data.map (fun x => Int.fdiv x (2 ^ (8 * (w.sampwidth - 2)))) }
  else w

/-- `int(math.floor(frame_time_span / 1000 * wav_data.rate))`. -/
def frameSampleSpan (w : Wav) (frame_time_span : ℚ) : ℤ :=
  ⌊frame_time_span / 1000 * (w.rate : ℚ)⌋

/-- `int(start_time / 1000 * wav_data.rate)`. -/
def startFrame (w : Wav) (start_time : ℚ) : ℤ :=
  pyTrunc (start_time / 1000 * (w.rate : ℚ))

/-- `int((end_time / 1000 + frame_time_span / 1000 - step_time_span / 1000) * wav_data.rate)`. -/
def endFrame (w : Wav) (frame_time_span step_time_span end_time : ℚ) : ℤ :=
  pyTrunc ((end_time / 1000 + frame_time_span / 1000 - step_time_span / 1000)
    * (w.rate : ℚ))

/-- The sample range `wav_data.data[start_frame:end_frame]` that
`getFrames` selects. -/
def selectedSamples (w : Wav) (fts sts st et : ℚ) : List ℤ :=
  pySliceList w.data (startFrame w st) (endFrame w fts sts et)

/-- `getFrames` from render.py over an already-decoded wav.  Returns the
frame array together with the wav object as the call leaves it behind:
the rescale for sample widths above 2 mutates the caller's sample array.
`frame_signal` (from silbidopy.sigproc, not under src/) is a parameter. -/
def getFrames (frame_signal : List ℚ → ℤ → ℚ → Arr2)
    (window_fn : Option (ℕ → ℕ → ℚ)) (w : Wav)
    (frame_time_span step_time_span start_time end_time : ℚ) : Arr2 × Wav :=
  let w := rescaleWav w
  let fss := frameSampleSpan w frame_time_span
  let sss := step_time_span / 1000 * (w.rate : ℚ)
  let sel := selectedSamples w frame_time_span step_time_span start_time end_time
  if (sel.length : ℤ) < fss then (emptyArr, w)
  else
    let frames := frame_signal (sel.map (fun x => (x : ℚ))) fss sss
    (match window_fn with
      | none => frames
      | some wfn => ⟨frames.r, frames.c, fun i j => frames.at2 i j * wfn frames.c j⟩,
      w)

/-- `normalize3(mat, min_v, max_v)`: clip into `[min_v, max_v]`, then
rescale linearly to `[0, 1]`. -/
def normalize3 (a : Arr2) (min_v max_v : ℚ) : Arr2 :=
  a.emap (fun x => (min max_v (max x min_v) - min_v) / (max_v - min_v))

/-- `getSpectrogram` from render.py over an already-decoded wav.  Raises
(`Except.error`) when no frame was extractable; otherwise returns the
scaled tile and the actual end time `start_time + shape[1] *
step_time_span`.  `frame_signal` and `magspec` (silbidopy.sigproc, not
under src/) and the elementwise `np.log10` are parameters. -/
def getSpectrogram (frame_signal : List ℚ → ℤ → ℚ → Arr2)
    (magspec : Arr2 → ℕ → Arr2) (log10 : ℚ → ℚ)
    (window_fn : Option (ℕ → ℕ → ℚ)) (w : Wav)
    (frame_time_span step_time_span spec_clip_min spec_clip_max
      min_freq max_freq start_time end_time : ℚ)
    (return_db : Bool) : Except String (Arr2 × ℚ) :=
  let freq_resolution := 1000 / frame_time_span
  let frames := (getFrames frame_signal window_fn w frame_time_span
    step_time_span start_time end_time).1
  if frames.r * frames.c = 0 then
    Except.error "ValueError: A long enough segment of audio samples was not available to calculate even a single discrete fourier transform"
  else
    let NFFT := frames.c
    let sm := magspec frames NFFT
    let clip_bottom : ℤ := ⌊min_freq / freq_resolution⌋
    let clip_top : ℤ := ⌊max_freq / freq_resolution⌋
    let spectrogram := ((sm.T.rowSlice clip_bottom clip_top).emap log10).flip
    let actual_end_time := start_time + (spectrogram.c : ℚ) * step_time_span
    if return_db then
      Except.ok (spectrogram.emap (fun x => 20 * x), actual_end_time)
    else
      Except.ok (normalize3 spectrogram spec_clip_min spec_clip_max,
        actual_end_time)

/-- An annotation mask: `np.zeros((image_height, image_width))` plus the
pixels set while drawing.  Assignment into a numpy array can never change
its shape, so the shape fields are fixed at creation. -/
structure Mask where
  h : ℤ
  w : ℤ
  pix : ℤ → ℤ → Bool

/-- Python float `%` for a nonzero modulus: `a - b * floor(a / b)`. -/
def pyMod (a b : ℚ) : ℚ := a - b * ⌊a / b⌋

/-- Python `round` on a float: round half to even. -/
def pyRound (q : ℚ) : ℤ :=
  if q - ⌊q⌋ < 1 / 2 then ⌊q⌋
  else if 1 / 2 < q - ⌊q⌋ then ⌊q⌋ + 1
  else if 2 ∣ ⌊q⌋ then ⌊q⌋ else ⌊q⌋ + 1

/-- `math.ceil(np.sqrt(q))` over exact rationals: the least natural whose
square is at least `q` (an integer square is at least `q` exactly when it
is at least `⌈q⌉`). -/
def ceilSqrt (q : ℚ) : ℕ :=
  let m := (⌈q⌉).toNat
  ((List.range (m + 1)).filter (fun k => decide (m ≤ k * k))).headD m

/-- `np.linspace(a, b, n)`: `n` evenly spaced points from `a` to `b`,
endpoints included. -/
def linspace (a b : ℚ) (n : ℕ) : List ℚ :=
  if n ≤ 1 then List.replicate n a
  else (List.range n).map (fun i => a + (b - a) * i / ((n : ℚ) - 1))

/-- The stripe assignment
`mask[max(curr_freq_rounded - line_thickness//2, 0) : curr_freq_rounded + ceil(line_thickness/2), t_rounded] = 1`;
rows outside `[0, h)` do not exist in the array, so the slice clips
there. -/
def setStripe (m : Mask) (cfr : ℤ) (lt : ℕ) (t : ℤ) : Mask :=
  { m with pix := fun i j =>
      if j = t ∧ max (cfr - (lt / 2 : ℕ)) 0 ≤ i
          ∧ i < cfr + (((lt : ℤ) + 1) / 2) ∧ i < m.h
      then true else m.pix i j }

/-- The geometry shared by the drawing loop of `getAnnotationMask`:
window start, window span, the adjusted maximum frequency, the frequency
resolution, the image dimensions and the line thickness. -/
structure DrawCtx where
  start_time : ℚ
  time_span : ℚ
  maxf : ℚ
  fr : ℚ
  iw : ℤ
  ih : ℤ
  lt : ℕ

/-- `time_frame = (time*1000 - start_time) * image_width / time_span`. -/
def projT (ctx : DrawCtx) (time : ℚ) : ℚ :=
  (time * 1000 - ctx.start_time) * (ctx.iw : ℚ) / ctx.time_span

/-- `freq_frame = (max_freq - freq) / freq_resolution`. -/
def projF (ctx : DrawCtx) (freq : ℚ) : ℚ := (ctx.maxf - freq) / ctx.fr

/-- The interpolating-line loop for one node pair: sample
`ceil(distance) + 1` points of `np.linspace(prev_time_frame, time_frame, ·)`;
round each time; skip columns outside the image; when the time delta is
below `1e-10` take `round(freq)` — the RAW frequency in Hz, as the source
does — else the interpolation formula; skip rows outside the image; else
set a vertical stripe. -/
def drawPoints (ctx : DrawCtx) (mask : Mask)
    (prev_t prev_f tf ff freq : ℚ) : Mask :=
  let dist2 := (tf - prev_t) ^ 2 + (ff - prev_f) ^ 2
  (linspace prev_t tf (ceilSqrt dist2 + 1)).foldl (fun m t =>
    let t_rounded := pyRound t
    if t_rounded < 0 ∨ ctx.iw ≤ t_rounded then m
    else
      let cfr := if tf - prev_t < 1 / 10 ^ 10 then pyRound freq
        else pyRound (ff + (prev_f - ff) / (prev_t - tf) * (t - tf))
      if cfr < 0 ∨ ctx.ih ≤ cfr then m
      else setStripe m cfr ctx.lt t_rounded) mask

/-- The per-annotation node walk of `getAnnotationMask`.  `break` once the
previous time frame reaches the image width; `continue` — leaving the
previous node UNCHANGED, as the source's loop does — when the current
time frame is left of the image or both frequency frames fall outside on
the same side; otherwise draw the segment and advance the previous
node. -/
def drawNodes (ctx : DrawCtx) : Mask → ℚ → ℚ → List (ℚ × ℚ) → Mask
  | mask, _, _, [] => mask
  | mask, prev_t, prev_f, (time, freq) :: rest =>
    let tf := projT ctx time
    let ff := projF ctx freq
    if (ctx.iw : ℚ) ≤ prev_t then mask
    else if tf < -(1 / 2) then drawNodes ctx mask prev_t prev_f rest
    else if (ff < -(1 / 2) ∧ prev_f < -(1 / 2))
        ∨ ((ctx.ih : ℚ) ≤ ff ∧ (ctx.ih : ℚ) ≤ prev_f) then
      drawNodes ctx mask prev_t prev_f rest
    else drawNodes ctx (drawPoints ctx mask prev_t prev_f tf ff freq) tf ff rest

/-- One annotation: the first node only seeds the previous-node state. -/
def drawAnn (ctx : DrawCtx) (mask : Mask) : List (ℚ × ℚ) → Mask
  | [] => mask
  | (time, freq) :: rest => drawNodes ctx mask (projT ctx time) (projF ctx freq) rest

/-- `getAnnotationMask` from render.py: adjust the frequency bounds to
multiples of the frequency resolution, size the image, keep only the
annotations overlapping the window in time (`a[-1][0] >= start_time/1000
and a[0][0] < end_time/1000`), and rasterize each one. -/
def getAnnotationMask (anns : List (List (ℚ × ℚ)))
    (frame_time_span step_time_span min_freq max_freq start_time end_time : ℚ)
    (line_thickness : ℕ) : Mask :=
  let freq_resolution := 1000 / frame_time_span
  let maxf := max_freq - pyMod max_freq freq_resolution
  let minf := min_freq - pyMod min_freq freq_resolution
  let image_width := pyTrunc ((end_time - start_time) / step_time_span)
  let image_height := pyTrunc ((maxf - minf) / freq_resolution)
  let mask : Mask := ⟨image_height, image_width, fun _ _ => false⟩
  let kept := anns.filter (fun a =>
    decide (start_time / 1000 ≤ (a.getLastD (0, 0)).1)
      && decide ((a.headD (0, 0)).1 < end_time / 1000))
  if kept.length = 0 then mask
  else
    let ctx : DrawCtx := ⟨start_time, end_time - start_time, maxf,
      freq_resolution, image_width, image_height, line_thickness⟩
    kept.foldl (fun m a => drawAnn ctx m a) mask

/-- Set one pixel `mask[i, jp] = 1`. -/
def setPix (m : Mask) (i j : ℕ) : Mask :=
  { m with pix := fun a b => if a = (i : ℤ) ∧ b = (j : ℤ) then true else m.pix a b }

/-- `np.ndindex((h, w))` in row-major order, as natural pairs. -/
def ndindexNat (h w : ℕ) : List (ℕ × ℕ) :=
  ((List.range h).map (fun i => (List.range w).map (fun j => (i, j)))).flatten

/-- The growth loop of `expand_annotation_mask` along one direction:
candidates already set in the ORIGINAL mask are skipped without testing;
the first candidate failing the snr test (against the background energy)
or the threshold test (candidate energy over seed energy) stops the
direction; qualifying candidates are set in the copy. -/
def growDir (anno : Mask) (spec : ℕ → ℕ → ℚ) (bg thr : ℚ)
    (snr : Option ℚ) (te : ℚ) (i : ℕ) : List ℕ → Mask → Mask
  | [], m => m
  | jp :: rest, m =>
    if anno.pix i jp then growDir anno spec bg thr snr te i rest m
    else if (match snr with
      | some ms => decide (spec i jp / bg < ms)
      | none => false) then m
    else if spec i jp / te < thr then m
    else growDir anno spec bg thr snr te i rest (setPix m i jp)

/-- One seed pixel of `expand_annotation_mask`: skip unset pixels, skip
seeds whose spectrogram energy is exactly zero (`if tonal_energy == 0:
continue`), then grow left and right up to `max_distance`. -/
def processSeed (anno : Mask) (spec : ℕ → ℕ → ℚ) (bg thr : ℚ)
    (snr : Option ℚ) (md : ℕ) (m : Mask) (ij : ℕ × ℕ) : Mask :=
  if anno.pix ij.1 ij.2 = false then m
  else
    let i := ij.1
    let j := ij.2
    let min_j := j - md
    let max_j := min (j + md) anno.w.toNat
    let left := (List.range (j - min_j)).map (fun k => j - 1 - k)
    let right := (List.range (max_j - (j + 1))).map (fun k => j + 1 + k)
    let te := spec i j
    if te = 0 then m
    else growDir anno spec bg thr snr te i right
      (growDir anno spec bg thr snr te i left m)

/-- `expand_annotation_mask` from render.py: a no-op on an all-zero mask;
otherwise the background energy is the mean spectrogram value over unset
pixels, and every set pixel of the ORIGINAL mask is grown independently
into a copy. -/
def expand_annotation_mask (anno : Mask) (spec : ℕ → ℕ → ℚ)
    (threshold : ℚ) (max_distance : ℕ) (min_snr : Option ℚ) : Mask :=
  let idxs := ndindexNat anno.h.toNat anno.w.toNat
  if idxs.countP (fun p => anno.pix p.1 p.2) = 0 then anno
  else
    let unset := idxs.filter (fun p => !anno.pix p.1 p.2)
    let bg := (unset.map (fun p => spec p.1 p.2)).sum / (unset.length : ℚ)
    idxs.foldl (processSeed anno spec bg threshold min_snr max_distance) anno

/-- `growDir` instrumented so that the candidate/seed ratio test uses a
CHECKED division: it fails (`none`) if it would ever divide by a zero
seed energy.  The snr test divides by the background energy, which the
claim does not cover, so it stays unchecked. -/
def growDirChecked (anno : Mask) (spec : ℕ → ℕ → ℚ) (bg thr : ℚ)
    (snr : Option ℚ) (te : ℚ) (i : ℕ) : List ℕ → Mask → Option Mask
  | [], m => some m
  | jp :: rest, m =>
    if anno.pix i jp then growDirChecked anno spec bg thr snr te i rest m
    else if (match snr with
      | some ms => decide (spec i jp / bg < ms)
      | none => false) then some m
    else if te = 0 then none
    else if spec i jp / te < thr then some m
    else growDirChecked anno spec bg thr snr te i rest (setPix m i jp)

/-- `processSeed` with the checked candidate/seed ratio. -/
def processSeedChecked (anno : Mask) (spec : ℕ → ℕ → ℚ) (bg thr : ℚ)
    (snr : Option ℚ) (md : ℕ) (m : Mask) (ij : ℕ × ℕ) : Option Mask :=
  if anno.pix ij.1 ij.2 = false then some m
  else
    let i := ij.1
    let j := ij.2
    let min_j := j - md
    let max_j := min (j + md) anno.w.toNat
    let left := (List.range (j - min_j)).map (fun k => j - 1 - k)
    let right := (List.range (max_j - (j + 1))).map (fun k => j + 1 + k)
    let te := spec i j
    if te = 0 then some m
    else do
      let m1 ← growDirChecked anno spec bg thr snr te i left m
      growDirChecked anno spec bg thr snr te i right m1

/-- `expand_annotation_mask` with every candidate/seed ratio checked. -/
def expandChecked (anno : Mask) (spec : ℕ → ℕ → ℚ)
    (threshold : ℚ) (max_distance : ℕ) (min_snr : Option ℚ) : Option Mask :=
  let idxs := ndindexNat anno.h.toNat anno.w.toNat
  if idxs.countP (fun p => anno.pix p.1 p.2) = 0 then some anno
  else
    let unset := idxs.filter (fun p => !anno.pix p.1 p.2)
    let bg := (unset.map (fun p => spec p.1 p.2)).sum / (unset.length : ℚ)
    idxs.foldlM (processSeedChecked anno spec bg threshold min_snr max_distance) anno

/-- Modelled from the spec: `frame_signal` of silbidopy.sigproc is not
under src/.  Per §4.2, frame start offsets accumulate the real-valued
step in samples, rounding to the nearest sample index at each step, and
each frame is `flen` consecutive samples; as many frames are produced as
fit in the signal (the search bound `len + 1` covers every step of at
least one sample, which is the only regime the claims evaluate). -/
def frameSignalSpec (sig : List ℚ) (flen : ℤ) (step : ℚ) : Arr2 :=
  let n := ((List.range (sig.length + 1)).filter
    (fun i => decide (pyRound ((i : ℚ) * step) + flen ≤ (sig.length : ℤ)))).length
  ⟨n, flen.toNat, fun i j => sig.getD ((pyRound ((i : ℚ) * step)).toNat + j) 0⟩

/-- Modelled from the spec: `magspec` of silbidopy.sigproc is not under
src/.  Per §4.3 it is the magnitude of the real-input DFT of each frame
at its natural length, one row per frame and `NFFT/2 + 1` frequency
bins per row; only this shape reaches any claim below, so the magnitude
values themselves are left at zero. -/
def magspecSpec (frames : Arr2) (nfft : ℕ) : Arr2 :=
  ⟨frames.r, nfft / 2 + 1, fun _ _ => 0⟩

/-- C6: when the selected sample range holds fewer samples than one
frame, `getFrames` returns the explicitly empty frame set without an
error, while `getSpectrogram` on the same input raises the
insufficient-samples ValueError because zero frames were extractable. -/
theorem short_range_empty_frames_spectrogram_error
    (frame_signal : List ℚ → ℤ → ℚ → Arr2) (magspec : Arr2 → ℕ → Arr2)
    (log10 : ℚ → ℚ) (window_fn : Option (ℕ → ℕ → ℚ)) (w : Wav)
    (fts sts cmin cmax minf maxf st et : ℚ) (rdb : Bool)
    (h : ((selectedSamples (rescaleWav w) fts sts st et).length : ℤ)
      < frameSampleSpan (rescaleWav w) fts) :
    (getFrames frame_signal window_fn w fts sts st et).1 = emptyArr
      ∧ ∃ msg, getSpectrogram frame_signal magspec log10 window_fn w
          fts sts cmin cmax minf maxf st et rdb = Except.error msg := by
  have h1 : (getFrames frame_signal window_fn w fts sts st et).1 = emptyArr := by
    simp only [getFrames]
    rw [if_pos h]
  refine ⟨h1, ?_, ?_⟩
  · exact "ValueError: A long enough segment of audio samples was not available to calculate even a single discrete fourier transform"
  · simp only [getSpectrogram, h1]
    rfl

/-- Witness for C6: a three-sample, 16-bit wav at 1 kHz with an 8 ms
frame needs 8 samples but only 3 are available. -/
theorem short_range_witness :
    (getFrames (fun _ _ _ => emptyArr) none ⟨[0, 0, 0], 1000, 2⟩ 8 2 0 100).1 = emptyArr
      ∧ ∃ msg, getSpectrogram (fun _ _ _ => emptyArr) magspecSpec id none
          ⟨[0, 0, 0], 1000, 2⟩ 8 2 0 6 5000 50000 0 100 false = Except.error msg :=
  short_range_empty_frames_spectrogram_error (fun _ _ _ => emptyArr)
    magspecSpec id none ⟨[0, 0, 0], 1000, 2⟩ 8 2 0 6 5000 50000 0 100 false
    (by decide)

/-- The 24-bit cached wav of the C4 evaluation. -/
def wav24 : Wav := ⟨[512, 256, 0, 0, 0, 0, 0, 0, 0, 0], 1000, 3⟩

/-- C4 (code bug): `getFrames` floor-divides the sample array of a
cached 24-bit wav in place, so the shared wav leaves the call changed,
and a second fetch of the same patch reads different samples and
different frames: the first call's frames start at sample value 2, the
second call on the wav the first call left behind starts at 0. -/
theorem getFrames_mutates_cached_wav :
    ((getFrames frameSignalSpec none wav24 8 2 0 4).2).data ≠ wav24.data
      ∧ (getFrames frameSignalSpec none wav24 8 2 0 4).1.at2 0 0 = 2
      ∧ (getFrames frameSignalSpec none
          ((getFrames frameSignalSpec none wav24 8 2 0 4).2) 8 2 0 4).1.at2 0 0 = 0 := by
  refine ⟨by decide, by decide, by decide⟩

set_option maxRecDepth 400000 in
/-- C7 (code bug): for a vertical segment (time delta below 1e-10 in
pixel units) the drawn row is `round(freq)`, the raw frequency in hertz,
not the projected pixel row `round((max_freq - freq)/freq_resolution)`:
the segment from (0.05 s, 10000 Hz) to (0.05 s, 100 Hz) sets pixel row
100 (the raw 100 Hz value) at column 25, while the projected row of the
endpoint is 399, outside the 360-row image, where the claimed behavior
would draw nothing. -/
theorem getAnnotationMask_vertical_uses_raw_freq :
    (getAnnotationMask [[(1/20, 10000), (1/20, 100)]] 8 2 5000 50000 0 100 1).pix 100 25 = true
      ∧ (getAnnotationMask [[(1/20, 10000), (1/20, 100)]] 8 2 5000 50000 0 100 1).pix 399 25 = false
      ∧ pyRound ((50000 - pyMod 50000 (1000/8) - 100) / (1000/8)) = 399
      ∧ (getAnnotationMask [[(1/20, 10000), (1/20, 100)]] 8 2 5000 50000 0 100 1).h = 360 := by
  refine ⟨by decide, by decide, by decide, by decide⟩


theorem growDirChecked_eq (anno : Mask) (spec : ℕ → ℕ → ℚ) (bg thr : ℚ)
    (snr : Option ℚ) (te : ℚ) (i : ℕ) (hte : ¬ te = 0) :
    ∀ (l : List ℕ) (m : Mask), growDirChecked anno spec bg thr snr te i l m
      = some (growDir anno spec bg thr snr te i l m) := by
  intro l
  induction l with
  | nil => intro m; rfl
  | cons jp rest ih =>
    intro m
    simp only [growDirChecked, growDir, hte, ite_false, if_false]
    split
    · exact ih m
    · split
      · rfl
      · split
        · rfl
        · exact ih _

theorem processSeedChecked_eq (anno : Mask) (spec : ℕ → ℕ → ℚ) (bg thr : ℚ)
    (snr : Option ℚ) (md : ℕ) (m : Mask) (ij : ℕ × ℕ) :
    processSeedChecked anno spec bg thr snr md m ij
      = some (processSeed anno spec bg thr snr md m ij) := by
  simp only [processSeedChecked, processSeed]
  split
  · rfl
  · split
    · rfl
    · rename_i h1 h2
      simp [growDirChecked_eq anno spec bg thr snr _ _ h2]

theorem foldlM_option_of_eq {α β : Type} (f : β → α → β) (g : β → α → Option β)
    (hfg : ∀ b a, g b a = some (f b a)) :
    ∀ (l : List α) (b : β), l.foldlM g b = some (l.foldl f b) := by
  intro l
  induction l with
  | nil => intro b; rfl
  | cons a rest ih =>
    intro b
    simp [List.foldlM, hfg, ih]

/-- C10: the candidate/seed energy-ratio test in `expand_annotation_mask`
never divides by zero — the instrumented expander whose candidate/seed
ratio uses a checked division always succeeds and agrees with the plain
one — and every already-set seed whose spectrogram energy is exactly zero
is skipped entirely: processing it leaves the mask unchanged in both
directions. -/
theorem expand_annotation_mask_zero_seed_safe (anno : Mask)
    (spec : ℕ → ℕ → ℚ) (thr : ℚ) (md : ℕ) (snr : Option ℚ)
    (bg : ℚ) (m : Mask) (i j : ℕ) :
    expandChecked anno spec thr md snr
        = some (expand_annotation_mask anno spec thr md snr)
      ∧ (spec i j = 0 → processSeed anno spec bg thr snr md m (i, j) = m) := by
  constructor
  · simp only [expandChecked, expand_annotation_mask]
    split
    · rfl
    · exact foldlM_option_of_eq _ _ (processSeedChecked_eq anno spec _ thr snr md) _ _
  · intro h0
    simp only [processSeed]
    split
    · rfl
    · simp [h0]


/-! ## BalancedDataset (data.py) -/

theorem pyTrunc_natCast (n : ℕ) : pyTrunc (n : ℚ) = n := by
  unfold pyTrunc
  rw [if_neg (by exact_mod_cast Nat.not_lt_zero n), Int.floor_natCast]

theorem pyTrunc_intCast (z : ℤ) : pyTrunc (z : ℚ) = z := by
  unfold pyTrunc
  split <;> simp

/-- The pool sizes `(len_p, len_n)` of `BalancedDataset.__init__`:
all of one side for the degenerate proportions, otherwise
`len_p = int(min(init_len_p, p*init_len_n/(1-p)))` and
`len_n = int((1-p)*len_p/p)`. -/
def balancedLens (p : ℚ) (initLenP initLenN : ℕ) : ℕ × ℕ :=
  if p = 1 then (initLenP, 0)
  else if p = 0 then (0, initLenN)
  else
    let lp := (pyTrunc (min (initLenP : ℚ) (p * initLenN / (1 - p)))).toNat
    (lp, (pyTrunc ((1 - p) * lp / p)).toNat)

/-- `BalancedDataset.__init__` index construction, with numpy's global
generator abstracted: `R` is the generator state, `shuffle` is
`np.random.shuffle` returning the permuted array and the advanced state,
`seedFn s` is the state right after `np.random.seed(s)`, and `g` is
whatever global state the constructor starts from.  The source's
`np.sort(positive_indices)` discards its result, so the input orders
reach the shuffles unchanged; with a non-None seed the state is reset to
`seedFn s` before any shuffle; the positive pool is shuffled, then the
negative pool, the truncated pools are concatenated, and the result is
shuffled once more into `self.indices`. -/
def balancedIndices {R : Type} (shuffle : List ℕ → R → List ℕ × R)
    (seedFn : ℕ → R) (g : R) (posL negL : List ℕ) (p : ℚ)
    (seed : Option ℕ) : List ℕ × R :=
  let g0 := match seed with
    | some s => seedFn s
    | none => g
  let pr := shuffle posL g0
  let nr := shuffle negL pr.2
  let lens := balancedLens p pr.1.length nr.1.length
  shuffle (pr.1.take lens.1 ++ nr.1.take lens.2) nr.2

theorem balancedLens_half (P N : ℕ) (h : P ≤ N) :
    balancedLens (1/2) P N = (P, P) := by
  unfold balancedLens
  rw [if_neg (by norm_num), if_neg (by norm_num)]
  have e1 : (1/2 : ℚ) * N / (1 - 1/2) = (N : ℚ) := by
    rw [show (1:ℚ) - 1/2 = 1/2 by norm_num, mul_comm,
      mul_div_cancel_right₀ _ (by norm_num : (1/2 : ℚ) ≠ 0)]
  simp only [e1, ← Nat.cast_min, pyTrunc_natCast, Int.toNat_natCast,
    Nat.min_eq_left h]
  have e2 : (1 - (1/2 : ℚ)) * P / (1/2) = (P : ℚ) := by
    rw [show (1:ℚ) - 1/2 = 1/2 by norm_num, mul_comm,
      mul_div_cancel_right₀ _ (by norm_num : (1/2 : ℚ) ≠ 0)]
  simp only [e2, pyTrunc_natCast, Int.toNat_natCast]

/-- C8: with positive proportion one half and at least as many negatives
as positives, the balanced view holds exactly twice the positive count of
entries: as many members of the positive pool as there are positives, and
the same number of members of the negative pool. -/
theorem balancedIndices_half_balanced (R : Type)
    (shuffle : List ℕ → R → List ℕ × R)
    (hsh : ∀ (l : List ℕ) (r : R), ((shuffle l r).1).Perm l)
    (seedFn : ℕ → R) (g : R) (posL negL : List ℕ) (seed : Option ℕ)
    (hlen : posL.length ≤ negL.length)
    (hdisj : ∀ x ∈ posL, x ∉ negL) :
    (balancedIndices shuffle seedFn g posL negL (1/2) seed).1.length
        = 2 * posL.length
      ∧ (balancedIndices shuffle seedFn g posL negL (1/2) seed).1.countP
          (fun x => decide (x ∈ posL)) = posL.length
      ∧ (balancedIndices shuffle seedFn g posL negL (1/2) seed).1.countP
          (fun x => decide (x ∈ negL)) = posL.length := by
  simp only [balancedIndices]
  generalize (match seed with | some s => seedFn s | none => g) = g0
  have hp := hsh posL g0
  have hn := hsh negL (shuffle posL g0).2
  rw [hp.length_eq, hn.length_eq, balancedLens_half _ _ hlen]
  set p1 := (shuffle posL g0).1 with hp1
  set n1 := (shuffle negL (shuffle posL g0).2).1 with hn1
  have htakep : p1.take posL.length = p1 := by
    rw [← hp.length_eq, List.take_length]
  have hlenn : (n1.take posL.length).length = posL.length := by
    rw [List.length_take, hn.length_eq, Nat.min_eq_left hlen]
  have hfin := hsh (p1.take posL.length ++ n1.take posL.length)
    (shuffle negL (shuffle posL g0).2).2
  refine ⟨?_, ?_, ?_⟩
  · rw [hfin.length_eq, List.length_append, htakep, hlenn]
    have := hp.length_eq
    omega
  · rw [hfin.countP_eq, List.countP_append, htakep]
    have c1 : p1.countP (fun x => decide (x ∈ posL)) = p1.length :=
      List.countP_eq_length.mpr (fun a ha => decide_eq_true (hp.mem_iff.mp ha))
    have c2 : (n1.take posL.length).countP (fun x => decide (x ∈ posL)) = 0 :=
      List.countP_eq_zero.mpr (fun a ha => by
        simp only [decide_eq_true_eq]
        exact fun hmem => hdisj a hmem (hn.mem_iff.mp (List.take_subset _ _ ha)))
    rw [c1, c2, ← hp.length_eq]
    omega
  · rw [hfin.countP_eq, List.countP_append, htakep]
    have c1 : p1.countP (fun x => decide (x ∈ negL)) = 0 :=
      List.countP_eq_zero.mpr (fun a ha => by
        simp only [decide_eq_true_eq]
        exact hdisj a (hp.mem_iff.mp ha))
    have c2 : (n1.take posL.length).countP (fun x => decide (x ∈ negL))
        = (n1.take posL.length).length :=
      List.countP_eq_length.mpr (fun a ha =>
        decide_eq_true (hn.mem_iff.mp (List.take_subset _ _ ha)))
    rw [c1, c2, hlenn]
    omega

/-- Witness for C8: the identity shuffle on one positive and two
negatives. -/
theorem balancedIndices_half_witness :
    (balancedIndices (fun l r => (l, r)) (fun _ => ()) () [0] [1, 2] (1/2) none).1.length
        = 2 * [0].length
      ∧ (balancedIndices (fun l r => (l, r)) (fun _ => ()) () [0] [1, 2] (1/2) none).1.countP
          (fun x => decide (x ∈ [0])) = [0].length
      ∧ (balancedIndices (fun l r => (l, r)) (fun _ => ()) () [0] [1, 2] (1/2) none).1.countP
          (fun x => decide (x ∈ [1, 2])) = [0].length :=
  balancedIndices_half_balanced Unit (fun l r => (l, r))
    (fun l _ => List.Perm.refl l) (fun _ => ()) () [0] [1, 2] none
    (by decide) (by decide)

/-- C9: BalancedDataset construction with a non-None seed is a function
of the seed and the input index pools alone: the global generator state
it starts from has no influence on the produced index sequence, because
`np.random.seed(seed)` resets the generator before every shuffle the
construction performs. -/
theorem balancedIndices_seed_reproducible (R : Type)
    (shuffle : List ℕ → R → List ℕ × R) (seedFn : ℕ → R) (g gother : R)
    (posL negL : List ℕ) (p : ℚ) (s : ℕ) :
    (balancedIndices shuffle seedFn g posL negL p (some s)).1
      = (balancedIndices shuffle seedFn gother posL negL p (some s)).1 := rfl


/-! ## C3: mask shape against spectrogram shape -/

theorem foldl_mask_shape {α : Type} (f : Mask → α → Mask)
    (hf : ∀ m a, (f m a).h = m.h ∧ (f m a).w = m.w) :
    ∀ (l : List α) (m : Mask),
      (l.foldl f m).h = m.h ∧ (l.foldl f m).w = m.w := by
  intro l
  induction l with
  | nil => intro m; exact ⟨rfl, rfl⟩
  | cons a rest ih =>
    intro m
    rw [List.foldl_cons]
    exact ⟨((ih (f m a)).1).trans (hf m a).1, ((ih (f m a)).2).trans (hf m a).2⟩

theorem drawPoints_shape (ctx : DrawCtx) (m : Mask) (pt pf tf ff freq : ℚ) :
    (drawPoints ctx m pt pf tf ff freq).h = m.h
      ∧ (drawPoints ctx m pt pf tf ff freq).w = m.w := by
  unfold drawPoints
  apply foldl_mask_shape
  intro m' t
  dsimp only
  split
  · exact ⟨rfl, rfl⟩
  · split <;> split <;> exact ⟨rfl, rfl⟩

theorem drawNodes_shape (ctx : DrawCtx) :
    ∀ (l : List (ℚ × ℚ)) (m : Mask) (pt pf : ℚ),
      (drawNodes ctx m pt pf l).h = m.h ∧ (drawNodes ctx m pt pf l).w = m.w := by
  intro l
  induction l with
  | nil => intro m pt pf; exact ⟨rfl, rfl⟩
  | cons nd rest ih =>
    intro m pt pf
    obtain ⟨t, f⟩ := nd
    simp only [drawNodes]
    split
    · exact ⟨rfl, rfl⟩
    · split
      · exact ih m pt pf
      · split
        · exact ih m pt pf
        · exact ⟨((ih _ _ _).1).trans (drawPoints_shape ctx m pt pf _ _ f).1,
            ((ih _ _ _).2).trans (drawPoints_shape ctx m pt pf _ _ f).2⟩

theorem drawAnn_shape (ctx : DrawCtx) (m : Mask) (a : List (ℚ × ℚ)) :
    (drawAnn ctx m a).h = m.h ∧ (drawAnn ctx m a).w = m.w := by
  cases a with
  | nil => exact ⟨rfl, rfl⟩
  | cons nd rest =>
    obtain ⟨t, f⟩ := nd
    simp only [drawAnn]
    exact drawNodes_shape ctx rest m _ _

/-- The shape of the annotation mask, whatever the annotations are. -/
theorem getAnnotationMask_shape (anns : List (List (ℚ × ℚ)))
    (fts sts minf maxf st et : ℚ) (lt : ℕ) :
    (getAnnotationMask anns fts sts minf maxf st et lt).h
        = pyTrunc ((maxf - pyMod maxf (1000 / fts)
            - (minf - pyMod minf (1000 / fts))) / (1000 / fts))
      ∧ (getAnnotationMask anns fts sts minf maxf st et lt).w
        = pyTrunc ((et - st) / sts) := by
  simp only [getAnnotationMask]
  split
  · exact ⟨rfl, rfl⟩
  · exact foldl_mask_shape _ (fun m a => drawAnn_shape _ m a) _ _


theorem frameSampleSpan_rescale (w : Wav) (fts : ℚ) :
    frameSampleSpan (rescaleWav w) fts = frameSampleSpan w fts := by
  unfold rescaleWav frameSampleSpan
  split <;> rfl

/-- In the non-short branch, the frames `getFrames` returns have
`frame_sample_span` columns whenever `frame_signal` does. -/
theorem getFrames_c_or_empty (fs : List ℚ → ℤ → ℚ → Arr2)
    (wfn : Option (ℕ → ℕ → ℚ)) (w : Wav) (fts sts st et : ℚ)
    (hfs : ∀ sig flen step, (fs sig flen step).c = flen.toNat) :
    (getFrames fs wfn w fts sts st et).1 = emptyArr
      ∨ (getFrames fs wfn w fts sts st et).1.c
          = (frameSampleSpan w fts).toNat := by
  simp only [getFrames]
  split
  · exact Or.inl rfl
  · right
    cases wfn <;> simp [hfs, frameSampleSpan_rescale]

/-- What an `Except.ok` result of `getSpectrogram` looks like: its row
count is the clipped bin range of the magspec transpose, its column
count is the magspec row count, and the actual end time advances one
step per magspec row. -/
theorem getSpectrogram_ok_shape (fs : List ℚ → ℤ → ℚ → Arr2)
    (ms : Arr2 → ℕ → Arr2) (l10 : ℚ → ℚ) (wfn : Option (ℕ → ℕ → ℚ))
    (w : Wav) (fts sts cmin cmax minf maxf st et : ℚ) (rdb : Bool)
    (s : Arr2) (aet : ℚ)
    (hok : getSpectrogram fs ms l10 wfn w fts sts cmin cmax minf maxf st et rdb
      = Except.ok (s, aet)) :
    s.r = pySliceIdx
          (ms ((getFrames fs wfn w fts sts st et).1)
            ((getFrames fs wfn w fts sts st et).1).c).c
          ⌊maxf / (1000 / fts)⌋
        - pySliceIdx
          (ms ((getFrames fs wfn w fts sts st et).1)
            ((getFrames fs wfn w fts sts st et).1).c).c
          ⌊minf / (1000 / fts)⌋
      ∧ s.c = (ms ((getFrames fs wfn w fts sts st et).1)
          ((getFrames fs wfn w fts sts st et).1).c).r
      ∧ aet = st + ((ms ((getFrames fs wfn w fts sts st et).1)
          ((getFrames fs wfn w fts sts st et).1).c).r : ℚ) * sts := by
  simp only [getSpectrogram] at hok
  split at hok
  · exact absurd hok (by simp)
  · split at hok
    · rw [Except.ok.injEq, Prod.mk.injEq] at hok
      obtain ⟨hs, ha⟩ := hok
      subst hs
      exact ⟨rfl, rfl, ha.symm⟩
    · rw [Except.ok.injEq, Prod.mk.injEq] at hok
      obtain ⟨hs, ha⟩ := hok
      subst hs
      exact ⟨rfl, rfl, ha.symm⟩


/-- C3 (amended): for every contour list (contours nonempty) and shared
parameter tuple with positive spans, `0 ≤ min_freq ≤ max_freq`, and
`max_freq` within the DFT bin range of the paired call (the claim fails
without this bound: numpy silently clips the spectrogram's row slice to
the available `NFFT/2 + 1` bins while the mask height formula does not),
the mask built with `end_time` equal to the returned actual end time has
exactly the spectrogram tile's 2-D shape. -/
theorem getAnnotationMask_shape_matches_spectrogram
    (fs : List ℚ → ℤ → ℚ → Arr2) (ms : Arr2 → ℕ → Arr2) (l10 : ℚ → ℚ)
    (wfn : Option (ℕ → ℕ → ℚ)) (w : Wav) (anns : List (List (ℚ × ℚ)))
    (fts sts cmin cmax minf maxf st et : ℚ) (lt : ℕ) (rdb : Bool)
    (s : Arr2) (aet : ℚ)
    (hfts : 0 < fts) (hsts : 0 < sts) (hminf : 0 ≤ minf) (hfm : minf ≤ maxf)
    (_hann : ∀ a ∈ anns, a ≠ [])
    (hfs : ∀ sig flen step, (fs sig flen step).c = flen.toNat)
    (hms : ∀ a n, (ms a n).r = a.r ∧ (ms a n).c = n / 2 + 1)
    (htop : ⌊maxf * fts / 1000⌋ ≤ (((frameSampleSpan w fts).toNat / 2 + 1 : ℕ) : ℤ))
    (hok : getSpectrogram fs ms l10 wfn w fts sts cmin cmax minf maxf st et rdb
      = Except.ok (s, aet)) :
    ((getAnnotationMask anns fts sts minf maxf st aet lt).h,
      (getAnnotationMask anns fts sts minf maxf st aet lt).w)
      = ((s.r : ℤ), (s.c : ℤ)) := by
  have hfr : (0 : ℚ) < 1000 / fts := by positivity
  have hfr0 : (1000 / fts : ℚ) ≠ 0 := ne_of_gt hfr
  have hcb0 : 0 ≤ ⌊minf / (1000 / fts)⌋ := Int.floor_nonneg.mpr (by positivity)
  have hcbct : ⌊minf / (1000 / fts)⌋ ≤ ⌊maxf / (1000 / fts)⌋ :=
    Int.floor_le_floor (by gcongr)
  rcases getFrames_c_or_empty fs wfn w fts sts st et hfs with hemp | hc
  · exfalso
    simp only [getSpectrogram, hemp] at hok
    simp [emptyArr] at hok
  · obtain ⟨hsr, hsc, haet⟩ := getSpectrogram_ok_shape fs ms l10 wfn w fts sts
      cmin cmax minf maxf st et rdb s aet hok
    have hB : (ms ((getFrames fs wfn w fts sts st et).1)
        ((getFrames fs wfn w fts sts st et).1).c).c
        = (frameSampleSpan w fts).toNat / 2 + 1 := by
      rw [(hms _ _).2, hc]
    obtain ⟨mh, mw⟩ := getAnnotationMask_shape anns fts sts minf maxf st aet lt
    rw [Prod.mk.injEq]
    constructor
    · rw [mh]
      have harg : (maxf - pyMod maxf (1000 / fts)
          - (minf - pyMod minf (1000 / fts))) / (1000 / fts)
          = ((⌊maxf / (1000 / fts)⌋ - ⌊minf / (1000 / fts)⌋ : ℤ) : ℚ) := by
        unfold pyMod
        rw [div_eq_iff hfr0]
        push_cast
        ring
      rw [harg, pyTrunc_intCast, hsr]
      have hctB : (⌊maxf / (1000 / fts)⌋).toNat
          ≤ (ms ((getFrames fs wfn w fts sts st et).1)
              ((getFrames fs wfn w fts sts st et).1).c).c := by
        rw [hB]
        exact Int.toNat_le.mpr (by rw [div_div_eq_mul_div]; exact htop)
      have hcbB : (⌊minf / (1000 / fts)⌋).toNat
          ≤ (ms ((getFrames fs wfn w fts sts st et).1)
              ((getFrames fs wfn w fts sts st et).1).c).c :=
        le_trans (Int.toNat_le_toNat hcbct) hctB
      simp only [pySliceIdx]
      rw [if_neg (not_lt.mpr (le_trans hcb0 hcbct)), if_neg (not_lt.mpr hcb0),
        Nat.min_eq_left hctB, Nat.min_eq_left hcbB]
      omega
    · rw [mw, hsc, haet]
      have he : (st + ((ms ((getFrames fs wfn w fts sts st et).1)
          ((getFrames fs wfn w fts sts st et).1).c).r : ℚ) * sts - st) / sts
          = ((ms ((getFrames fs wfn w fts sts st et).1)
              ((getFrames fs wfn w fts sts st et).1).c).r : ℚ) := by
        rw [add_sub_cancel_left, mul_div_cancel_right₀ _ (ne_of_gt hsts)]
      rw [he, pyTrunc_natCast]


/-- Whether a spectrogram call succeeded. -/
def specOk (e : Except String (Arr2 × ℚ)) : Bool :=
  match e with
  | Except.ok _ => true
  | Except.error _ => false

/-- The tile and actual end time of a successful spectrogram call. -/
def specVal (e : Except String (Arr2 × ℚ)) : Arr2 × ℚ :=
  match e with
  | Except.ok p => p
  | Except.error _ => (emptyArr, 0)

/-- C3 counterexample: a 1 kHz, 10-sample wav with the source's default
5-50 kHz band (here 0-50 kHz): the spectrogram call succeeds, its tile
has 5 rows (all the DFT offers at NFFT = 8), but the annotation mask for
the same window is 400 rows tall — the shapes differ. -/
theorem getAnnotationMask_shape_mismatch_cex :
    specOk (getSpectrogram frameSignalSpec magspecSpec id none
        ⟨List.replicate 10 0, 1000, 2⟩ 8 2 0 6 0 50000 0 4 false) = true
      ∧ ((getAnnotationMask [] 8 2 0 50000 0
            (specVal (getSpectrogram frameSignalSpec magspecSpec id none
              ⟨List.replicate 10 0, 1000, 2⟩ 8 2 0 6 0 50000 0 4 false)).2 1).h,
          (getAnnotationMask [] 8 2 0 50000 0
            (specVal (getSpectrogram frameSignalSpec magspecSpec id none
              ⟨List.replicate 10 0, 1000, 2⟩ 8 2 0 6 0 50000 0 4 false)).2 1).w)
        ≠ (((specVal (getSpectrogram frameSignalSpec magspecSpec id none
              ⟨List.replicate 10 0, 1000, 2⟩ 8 2 0 6 0 50000 0 4 false)).1.r : ℤ),
           ((specVal (getSpectrogram frameSignalSpec magspecSpec id none
              ⟨List.replicate 10 0, 1000, 2⟩ 8 2 0 6 0 50000 0 4 false)).1.c : ℤ)) := by
  refine ⟨by decide, by decide⟩

/-- Witness for the amended C3 at 125-625 Hz on a 1 kHz wav, where all
bins fit: both shapes are 4 rows by 2 columns. -/
theorem getAnnotationMask_shape_matches_witness :
    ((getAnnotationMask [] 8 2 125 625 0 4 1).h,
      (getAnnotationMask [] 8 2 125 625 0 4 1).w) = ((4 : ℤ), (2 : ℤ)) := by
  have h := getAnnotationMask_shape_matches_spectrogram frameSignalSpec
    magspecSpec id none ⟨List.replicate 10 0, 1000, 2⟩ [] 8 2 0 6 125 625 0 4
    1 false _ _ (by norm_num) (by norm_num) (by norm_num) (by norm_num)
    (by simp) (fun _ _ _ => rfl) (fun _ _ => ⟨rfl, rfl⟩) (by decide) rfl
  exact h.trans (by decide)

end Silbidopy